import Mathlib

/-!
Shallow embedding of the markdown-to-markup transform `formatItinerary`
from `src/results.js`, together with theorems about its per-line rules.

Lines are modelled as lists of characters; the JavaScript string methods
`split`, `trim`, `startsWith`, `endsWith` and the regex replacements used
by the source are translated into executable Lean functions below.
-/

set_option maxRecDepth 8000

/-- Whitespace class of the JavaScript regular-expression engine (the
characters matched by a whitespace class atom), which is also the set of
characters removed by the string trim method: tab, line feed, vertical tab,
form feed, carriage return, space, no-break space, ogham space mark, the
en-quad through hair-space range, line separator, paragraph separator,
narrow no-break space, medium mathematical space, ideographic space and
the byte-order mark. -/
def jsWhitespace (c : Char) : Bool :=
  c.toNat = 9 || c.toNat = 10 || c.toNat = 11 || c.toNat = 12 || c.toNat = 13 ||
  c.toNat = 32 || c.toNat = 0xa0 || c.toNat = 0x1680 ||
  (0x2000 ≤ c.toNat && c.toNat ≤ 0x200a) ||
  c.toNat = 0x2028 || c.toNat = 0x2029 || c.toNat = 0x202f ||
  c.toNat = 0x205f || c.toNat = 0x3000 || c.toNat = 0xfeff

/-- The string trim method: remove leading and trailing whitespace. -/
def jsTrim (cs : List Char) : List Char :=
  ((cs.dropWhile jsWhitespace).reverse.dropWhile jsWhitespace).reverse

/-- A character matched by the regular-expression dot: any character except
the four line terminators (line feed, carriage return, line separator,
paragraph separator). -/
def dotChar (c : Char) : Bool :=
  !(c.toNat = 10 || c.toNat = 13 || c.toNat = 0x2028 || c.toNat = 0x2029)

/-- Splitting on the newline character, as the split method does with the
one-character separator: the empty input yields one empty line, and every
newline character starts a new (possibly empty) line. -/
def splitLines : List Char → List (List Char)
  | [] => [[]]
  | c :: rest =>
    if c = '\n' then [] :: splitLines rest
    else
      match splitLines rest with
      | [] => [[c]]
      | l :: ls => (c :: l) :: ls

/-- Fueled scanner for the global replacement (by the empty string) of a run
of `k` hash marks followed by optional whitespace: scan left to right; at a
position where `k` hash marks start, consume them together with the maximal
following whitespace run; otherwise keep the character.  The wrapper
`stripHash` supplies enough fuel for the whole input. -/
def stripHashAux (k : Nat) : Nat → List Char → List Char
  | 0, cs => cs
  | _ + 1, [] => []
  | fuel + 1, c :: rest =>
    if (List.replicate k '#').isPrefixOf (c :: rest) then
      stripHashAux k fuel (((c :: rest).drop k).dropWhile jsWhitespace)
    else
      c :: stripHashAux k fuel rest

/-- Replacement of every run of `k` hash marks plus following whitespace by
the empty string, anywhere in the line (the global hash regex of the three
heading rules). -/
def stripHash (k : Nat) (cs : List Char) : List Char :=
  stripHashAux k cs.length cs

/-- Global removal of every two-asterisk occurrence (the global two-asterisk
regex replaced by the empty string, used by the standalone-bold rule). -/
def removeStars : List Char → List Char
  | '*' :: '*' :: rest => removeStars rest
  | c :: rest => c :: removeStars rest
  | [] => []

/-- Search for the closing two-asterisk delimiter of a lazily captured span:
the capture grows one dot character at a time until the nearest closing
delimiter; a line terminator or the end of input reached before a closing
delimiter means the match attempt fails. -/
def findClose : List Char → Option (List Char × List Char)
  | '*' :: '*' :: rest => some ([], rest)
  | c :: rest =>
    if dotChar c then
      match findClose rest with
      | some (cap, rest') => some (c :: cap, rest')
      | none => none
    else none
  | [] => none

/-- Fueled left-to-right scanner for the global inline bold replacement: at
each two-asterisk opener, lazily search for the nearest closing delimiter;
on success wrap the captured span in a strong tag and continue after the
match, otherwise keep one literal character and retry at the next position.
The wrapper `boldReplace` supplies enough fuel for the whole input. -/
def boldScanAux : Nat → List Char → List Char
  | 0, cs => cs
  | _ + 1, [] => []
  | fuel + 1, '*' :: '*' :: rest =>
    (match findClose rest with
     | some (cap, rest') =>
       "<strong>".toList ++ cap ++ "</strong>".toList ++ boldScanAux fuel rest'
     | none => '*' :: boldScanAux fuel ('*' :: rest))
  | fuel + 1, c :: rest => c :: boldScanAux fuel rest

/-- The inline bold transform of the paragraph rule: every lazily delimited
two-asterisk span is replaced by the span wrapped in a strong tag, scanning
left to right; unmatched delimiters stay literal. -/
def boldReplace (cs : List Char) : List Char :=
  boldScanAux cs.length cs

/-- The fixed horizontal-rule fragment with its inline style attributes. -/
def hrFragment : List Char :=
  "<hr style=\"margin: 2rem 0; border: none; border-top: 2px solid #e0e0e0;\">".toList

/-- Removal of the anchored leading hyphen together with the whitespace run
after it (the anchored, non-global hyphen regex of the list-item rule); a
line not starting with a hyphen is unchanged. -/
def stripLeadingDash : List Char → List Char
  | '-' :: rest => rest.dropWhile jsWhitespace
  | cs => cs

/-- Per-line transform of `formatItinerary`: classify the line by the
priority-ordered conditions of the source and produce its markup fragment. -/
def formatLine (line : List Char) : List Char :=
  if "### ".toList.isPrefixOf line then
    "<h3>".toList ++ stripHash 3 line ++ "</h3>".toList
  else if "## ".toList.isPrefixOf line then
    "<h2>".toList ++ stripHash 2 line ++ "</h2>".toList
  else if "# ".toList.isPrefixOf line then
    "<h1>".toList ++ stripHash 1 line ++ "</h1>".toList
  else if "**".toList.isPrefixOf line && "**".toList.isSuffixOf line then
    "<h3>".toList ++ removeStars line ++ "</h3>".toList
  else if "- ".toList.isPrefixOf line then
    "<li>".toList ++ stripLeadingDash line ++ "</li>".toList
  else if jsTrim line = "---".toList then
    hrFragment
  else if jsTrim line ≠ [] then
    "<p>".toList ++ boldReplace line ++ "</p>".toList
  else
    []

/-- The whole transform: split the text on newline characters, map the
per-line transform over the lines, and join the fragments with no
separator. -/
def formatItinerary (text : String) : String :=
  String.mk (((splitLines text.toList).map formatLine).flatten)

/-! ## Helper lemmas -/

/-- Splitting any character list gives at least one line. -/
theorem splitLines_exists_cons (cs : List Char) : ∃ l ls, splitLines cs = l :: ls := by
  induction cs with
  | nil => exact ⟨[], [], rfl⟩
  | cons c rest ih =>
    obtain ⟨l, ls, hrest⟩ := ih
    by_cases h : c = '\n'
    · subst h; exact ⟨[], splitLines rest, by simp [splitLines]⟩
    · exact ⟨c :: l, ls, by simp [splitLines, h, hrest]⟩

/-- The number of lines produced by splitting equals one more than the
number of newline characters in the input. -/
theorem splitLines_length (cs : List Char) :
    (splitLines cs).length = cs.count '\n' + 1 := by
  induction cs with
  | nil => simp [splitLines]
  | cons c rest ih =>
    by_cases h : c = '\n'
    · subst h
      simp [splitLines, List.count_cons, ih]
    · obtain ⟨l, ls, hrest⟩ := splitLines_exists_cons rest
      rw [hrest] at ih
      simp only [List.length_cons] at ih
      simp [splitLines, h, hrest, List.count_cons, Ne.symm h]
      omega

/-- Trimming only removes characters from the two ends: the trimmed list
begins the list obtained by dropping the leading whitespace. -/
theorem jsTrim_isPrefixOf_dropWhile (cs : List Char) :
    jsTrim cs <+: cs.dropWhile jsWhitespace := by
  unfold jsTrim
  have h := List.dropWhile_suffix (l := (cs.dropWhile jsWhitespace).reverse) jsWhitespace
  have h2 := List.reverse_prefix.mpr h
  rwa [List.reverse_reverse] at h2

/-- A list that trims to nothing consists of whitespace only. -/
theorem mem_ws_of_jsTrim_nil {cs : List Char} (h : jsTrim cs = []) :
    ∀ c ∈ cs, jsWhitespace c = true := by
  unfold jsTrim at h
  rw [List.reverse_eq_nil_iff, List.dropWhile_eq_nil_iff] at h
  intro c hc
  rw [← List.takeWhile_append_dropWhile (p := jsWhitespace) (l := cs)] at hc
  rcases List.mem_append.mp hc with h1 | h2
  · exact List.mem_takeWhile_imp h1
  · exact h c (List.mem_reverse.mpr h2)

/-- A nonempty pattern whose first character does not occur in the line is
not a line starter. -/
theorem not_prefix_head_notMem {a : Char} {as line : List Char} (h : a ∉ line) :
    ¬ ((a :: as) <+: line) := fun hp => by
  obtain ⟨t, ht⟩ := hp
  exact h (by rw [← ht]; simp)

/-- A line that is empty after trimming produces the empty fragment. -/
theorem formatLine_blank {line : List Char} (h : jsTrim line = []) : formatLine line = [] := by
  have hws := mem_ws_of_jsTrim_nil h
  have hnot : ∀ a : Char, jsWhitespace a = false → a ∉ line := fun a ha hmem => by
    rw [hws a hmem] at ha; cases ha
  have g1 : ¬ (['#', '#', '#', ' '] <+: line) := not_prefix_head_notMem (hnot '#' (by decide))
  have g2 : ¬ (['#', '#', ' '] <+: line) := not_prefix_head_notMem (hnot '#' (by decide))
  have g3 : ¬ (['#', ' '] <+: line) := not_prefix_head_notMem (hnot '#' (by decide))
  have g4 : ¬ (['*', '*'] <+: line) := not_prefix_head_notMem (hnot '*' (by decide))
  have g5 : ¬ (['-', ' '] <+: line) := not_prefix_head_notMem (hnot '-' (by decide))
  simp [formatLine, g1, g2, g3, g4, g5, h]

/-! ## Claim theorems -/

/-- Claim C1: for every input string, the render equals the separator-free
concatenation, in input order, of the per-line transform mapped over the
input split on the newline character; there is exactly one fragment per
input line (the number of lines being one more than the number of newline
characters), a line that is empty after trimming contributes the empty
fragment, and the empty input renders to the empty string. -/
theorem c1_render_is_per_line_concat (s : String) (line : List Char)
    (hblank : jsTrim line = []) :
    formatItinerary s = String.mk (((splitLines s.toList).map formatLine).flatten)
    ∧ ((splitLines s.toList).map formatLine).length = s.toList.count '\n' + 1
    ∧ formatLine line = []
    ∧ formatItinerary "" = "" := by
  refine ⟨rfl, ?_, formatLine_blank hblank, by decide⟩
  rw [List.length_map, splitLines_length]

/-- Witness for claim C1 at a concrete two-line input and a concrete
whitespace-only line. -/
theorem c1_render_is_per_line_concat_witness :
    formatItinerary "a\nb" = String.mk (((splitLines "a\nb".toList).map formatLine).flatten)
    ∧ ((splitLines "a\nb".toList).map formatLine).length = "a\nb".toList.count '\n' + 1
    ∧ formatLine " \t".toList = []
    ∧ formatItinerary "" = "" :=
  c1_render_is_per_line_concat "a\nb" " \t".toList (by decide)

/-- Claim C2 counterexample: the line made of a space then a delimited word
has its entire trimmed text wrapped in the two-asterisk delimiter pair and
matches no heading-prefix rule, yet it is rendered as a paragraph with
inline emphasis, not as a level-3 heading. -/
theorem c2_trimmed_counterexample :
    "**".toList.isPrefixOf (jsTrim " **x**".toList) = true
    ∧ "**".toList.isSuffixOf (jsTrim " **x**".toList) = true
    ∧ "### ".toList.isPrefixOf " **x**".toList = false
    ∧ "## ".toList.isPrefixOf " **x**".toList = false
    ∧ "# ".toList.isPrefixOf " **x**".toList = false
    ∧ formatItinerary " **x**" = "<p> <strong>x</strong></p>"
    ∧ "<h3>".toList.isPrefixOf (formatItinerary " **x**").toList = false := by
  decide

/-- Claim C2 (amended): every line that itself — untrimmed — starts with the
two-asterisk delimiter and ends with it, and matches no heading-prefix
rule, is rendered as a level-3 heading whose content is the line with every
occurrence of the two-asterisk delimiter removed; in particular the line
holding only a delimited word renders as a level-3 heading of that word. -/
theorem c2_standalone_bold_untrimmed (line : List Char)
    (hpre : "**".toList.isPrefixOf line = true)
    (hsuf : "**".toList.isSuffixOf line = true)
    (g1 : "### ".toList.isPrefixOf line = false)
    (g2 : "## ".toList.isPrefixOf line = false)
    (g3 : "# ".toList.isPrefixOf line = false) :
    formatLine line = "<h3>".toList ++ removeStars line ++ "</h3>".toList
    ∧ formatItinerary "**Important**" = "<h3>Important</h3>" := by
  refine ⟨?_, by decide⟩
  simp at hpre hsuf g1 g2 g3
  simp [formatLine, g1, g2, g3, hpre, hsuf]

/-- Witness for the amended claim C2 at a concrete fully wrapped line. -/
theorem c2_standalone_bold_untrimmed_witness :
    formatLine "**Go now**".toList
      = "<h3>".toList ++ removeStars "**Go now**".toList ++ "</h3>".toList
    ∧ formatItinerary "**Important**" = "<h3>Important</h3>" :=
  c2_standalone_bold_untrimmed "**Go now**".toList (by decide) (by decide)
    (by decide) (by decide) (by decide)

/-- Claim C3: a line reaching the paragraph case — non-empty after trimming
and matching none of the earlier rules — is wrapped in a paragraph tag
after the left-to-right non-greedy inline bold replacement; delimited spans
become strong tags, unterminated delimiters stay literal. -/
theorem c3_paragraph_inline_bold (line : List Char)
    (g1 : "### ".toList.isPrefixOf line = false)
    (g2 : "## ".toList.isPrefixOf line = false)
    (g3 : "# ".toList.isPrefixOf line = false)
    (g4 : ("**".toList.isPrefixOf line && "**".toList.isSuffixOf line) = false)
    (g5 : "- ".toList.isPrefixOf line = false)
    (g6 : jsTrim line ≠ "---".toList)
    (g7 : jsTrim line ≠ []) :
    formatLine line = "<p>".toList ++ boldReplace line ++ "</p>".toList
    ∧ formatItinerary "This is **bold** text" = "<p>This is <strong>bold</strong> text</p>"
    ∧ formatItinerary "ab **cd" = "<p>ab **cd</p>" := by
  refine ⟨?_, by decide, by decide⟩
  have g4' : ¬ (['*', '*'] <+: line ∧ ['*', '*'] <:+ line) := by
    intro hps
    rw [(by decide : "**".toList = ['*', '*'])] at g4
    rw [List.isPrefixOf_iff_prefix.mpr hps.1, List.isSuffixOf_iff_suffix.mpr hps.2] at g4
    cases g4
  simp at g1 g2 g3 g5 g6
  simp [formatLine, g1, g2, g3, g4', g5, g6, g7]

/-- Witness for claim C3 at a concrete plain line. -/
theorem c3_paragraph_inline_bold_witness :
    formatLine "hello".toList = "<p>".toList ++ boldReplace "hello".toList ++ "</p>".toList
    ∧ formatItinerary "This is **bold** text" = "<p>This is <strong>bold</strong> text</p>"
    ∧ formatItinerary "ab **cd" = "<p>ab **cd</p>" :=
  c3_paragraph_inline_bold "hello".toList (by decide) (by decide) (by decide)
    (by decide) (by decide) (by decide) (by decide)

/-- Claim C4: a line starting with three, two or one hash marks followed by
a space — checked in that priority order — is wrapped in the heading tag of
the matching level, with every occurrence of the same-length hash run plus
following whitespace removed anywhere in the line, not just the leading
one. -/
theorem c4_heading_rules (l3 l2 l1 : List Char)
    (h3 : "### ".toList.isPrefixOf l3 = true)
    (h2 : "## ".toList.isPrefixOf l2 = true)
    (h1 : "# ".toList.isPrefixOf l1 = true) :
    formatLine l3 = "<h3>".toList ++ stripHash 3 l3 ++ "</h3>".toList
    ∧ formatLine l2 = "<h2>".toList ++ stripHash 2 l2 ++ "</h2>".toList
    ∧ formatLine l1 = "<h1>".toList ++ stripHash 1 l1 ++ "</h1>".toList
    ∧ formatItinerary "# Title" = "<h1>Title</h1>"
    ∧ formatItinerary "### Day 1" = "<h3>Day 1</h3>"
    ∧ formatItinerary "## a ## b" = "<h2>a b</h2>" := by
  refine ⟨?_, ?_, ?_, by decide, by decide, by decide⟩
  · simp at h3
    simp [formatLine, h3]
  · obtain ⟨t, ht⟩ := List.isPrefixOf_iff_prefix.mp h2
    have hl : l2 = '#' :: '#' :: ' ' :: t := by rw [← ht]; rfl
    subst hl
    simp [formatLine]
  · obtain ⟨t, ht⟩ := List.isPrefixOf_iff_prefix.mp h1
    have hl : l1 = '#' :: ' ' :: t := by rw [← ht]; rfl
    subst hl
    simp [formatLine]

/-- Witness for claim C4 at concrete lines of each heading level. -/
theorem c4_heading_rules_witness :
    formatLine "### x".toList = "<h3>".toList ++ stripHash 3 "### x".toList ++ "</h3>".toList
    ∧ formatLine "## x".toList = "<h2>".toList ++ stripHash 2 "## x".toList ++ "</h2>".toList
    ∧ formatLine "# x".toList = "<h1>".toList ++ stripHash 1 "# x".toList ++ "</h1>".toList
    ∧ formatItinerary "# Title" = "<h1>Title</h1>"
    ∧ formatItinerary "### Day 1" = "<h3>Day 1</h3>"
    ∧ formatItinerary "## a ## b" = "<h2>a b</h2>" :=
  c4_heading_rules "### x".toList "## x".toList "# x".toList
    (by decide) (by decide) (by decide)

/-- Claim C5: a line starting with a hyphen and a space is wrapped in a
list-item tag with exactly the one leading hyphen and the whitespace after
it stripped; the fragment is the bare list item, with no enclosing list
container. -/
theorem c5_list_item (line : List Char)
    (h : "- ".toList.isPrefixOf line = true) :
    formatLine line = "<li>".toList ++ stripLeadingDash line ++ "</li>".toList
    ∧ formatItinerary "- Visit museum" = "<li>Visit museum</li>" := by
  refine ⟨?_, by decide⟩
  obtain ⟨t, ht⟩ := List.isPrefixOf_iff_prefix.mp h
  have hl : line = '-' :: ' ' :: t := by rw [← ht]; rfl
  subst hl
  simp [formatLine]

/-- Witness for claim C5 at a concrete list line. -/
theorem c5_list_item_witness :
    formatLine "- a".toList = "<li>".toList ++ stripLeadingDash "- a".toList ++ "</li>".toList
    ∧ formatItinerary "- Visit museum" = "<li>Visit museum</li>" :=
  c5_list_item "- a".toList (by decide)

/-- Claim C6: every line that trims to exactly three hyphens produces the
one fixed horizontal-rule fragment with its constant inline style,
independent of the surrounding whitespace. -/
theorem c6_horizontal_rule (line : List Char)
    (h : jsTrim line = "---".toList) :
    formatLine line = hrFragment
    ∧ formatItinerary "---" = String.mk hrFragment
    ∧ formatItinerary "  --- " = String.mk hrFragment := by
  refine ⟨?_, by decide, by decide⟩
  have hpre := jsTrim_isPrefixOf_dropWhile line
  rw [h] at hpre
  obtain ⟨t, ht⟩ := hpre
  obtain ⟨w, hwall, hl⟩ :
      ∃ w, (∀ c ∈ w, jsWhitespace c = true) ∧ line = w ++ '-' :: '-' :: '-' :: t := by
    refine ⟨line.takeWhile jsWhitespace, fun c hc => List.mem_takeWhile_imp hc, ?_⟩
    conv_lhs => rw [← List.takeWhile_append_dropWhile (p := jsWhitespace) (l := line)]
    rw [← ht]
    simp
  subst hl
  rcases w with _ | ⟨c, w'⟩
  · simp only [List.nil_append] at h ⊢
    simp [formatLine, h]
  · have hc : jsWhitespace c = true := hwall c (List.mem_cons_self c w')
    have hch : ¬ ('#' : Char) = c := fun he => by rw [← he] at hc; simp [jsWhitespace] at hc
    have hcs : ¬ ('*' : Char) = c := fun he => by rw [← he] at hc; simp [jsWhitespace] at hc
    have hcd : ¬ ('-' : Char) = c := fun he => by rw [← he] at hc; simp [jsWhitespace] at hc
    simp only [List.cons_append] at h ⊢
    simp [formatLine, hch, hcs, hcd, h]

/-- Witness for claim C6 at a concrete whitespace-padded rule line. -/
theorem c6_horizontal_rule_witness :
    formatLine " ---\t".toList = hrFragment
    ∧ formatItinerary "---" = String.mk hrFragment
    ∧ formatItinerary "  --- " = String.mk hrFragment :=
  c6_horizontal_rule " ---\t".toList (by decide)

/-- Claim C7: the transform is total — every input string renders to some
string — and a line matching none of the six classification rules falls
through to the paragraph case when non-empty after trimming and to the
blank case otherwise. -/
theorem c7_totality (s : String) (line : List Char)
    (g1 : "### ".toList.isPrefixOf line = false)
    (g2 : "## ".toList.isPrefixOf line = false)
    (g3 : "# ".toList.isPrefixOf line = false)
    (g4 : ("**".toList.isPrefixOf line && "**".toList.isSuffixOf line) = false)
    (g5 : "- ".toList.isPrefixOf line = false)
    (g6 : jsTrim line ≠ "---".toList) :
    (∃ markup : String, formatItinerary s = markup)
    ∧ ((jsTrim line ≠ [] ∧ formatLine line = "<p>".toList ++ boldReplace line ++ "</p>".toList)
       ∨ (jsTrim line = [] ∧ formatLine line = [])) := by
  refine ⟨⟨formatItinerary s, rfl⟩, ?_⟩
  have g4' : ¬ (['*', '*'] <+: line ∧ ['*', '*'] <:+ line) := by
    intro hps
    rw [(by decide : "**".toList = ['*', '*'])] at g4
    rw [List.isPrefixOf_iff_prefix.mpr hps.1, List.isSuffixOf_iff_suffix.mpr hps.2] at g4
    cases g4
  simp at g1 g2 g3 g5 g6
  by_cases hb : jsTrim line = []
  · exact Or.inr ⟨hb, formatLine_blank hb⟩
  · exact Or.inl ⟨hb, by simp [formatLine, g1, g2, g3, g4', g5, g6, hb]⟩

/-- Witness for claim C7 at a concrete input string and unclassified line. -/
theorem c7_totality_witness :
    (∃ markup : String, formatItinerary "x\ny" = markup)
    ∧ ((jsTrim "hi".toList ≠ []
          ∧ formatLine "hi".toList = "<p>".toList ++ boldReplace "hi".toList ++ "</p>".toList)
       ∨ (jsTrim "hi".toList = [] ∧ formatLine "hi".toList = [])) :=
  c7_totality "x\ny" "hi".toList (by decide) (by decide) (by decide)
    (by decide) (by decide) (by decide)

/-- Claim C8: the transform is deterministic — equal inputs render to equal
outputs — reflecting that the source function is a pure pass over its input
with no mutation and no input or output channels. -/
theorem c8_deterministic (s t : String) (h : s = t) :
    formatItinerary s = formatItinerary t := by
  rw [h]

/-- Witness for claim C8 at a concrete repeated input. -/
theorem c8_deterministic_witness :
    formatItinerary "# Trip" = formatItinerary "# Trip" :=
  c8_deterministic "# Trip" "# Trip" rfl

/-- Claim C9: the line of exactly two asterisks satisfies both the
starts-with and the ends-with delimiter checks through the same overlapping
characters, so it renders as a level-3 heading with empty content, not as a
paragraph and not as the rule fragment. -/
theorem c9_double_asterisk_line :
    ("**".toList.isPrefixOf "**".toList && "**".toList.isSuffixOf "**".toList) = true
    ∧ formatItinerary "**" = "<h3></h3>"
    ∧ formatItinerary "**" ≠ "<p>**</p>"
    ∧ formatItinerary "**" ≠ String.mk hrFragment := by
  decide

/-- Claim C10: only the newline character delimits lines — the fragment
count depends only on the newline count, so a carriage return is never a
line break — a paragraph line keeps its carriage return verbatim, and rule
and blank classification still trim the carriage return away. -/
theorem c10_carriage_return_not_a_break :
    (∀ cs : List Char, (splitLines cs).length = cs.count '\n' + 1)
    ∧ formatItinerary "A\r\nB" = "<p>A\r</p><p>B</p>"
    ∧ formatItinerary "---\r" = String.mk hrFragment
    ∧ formatItinerary "\r" = "" :=
  ⟨splitLines_length, by decide, by decide, by decide⟩
